import Mathlib

/-!
Shallow embedding of `src/lib/tokenBucket.js` (nChannel/node-rate-limiter).

JavaScript numbers are modelled as rationals (`ℚ`): the spec describes the
token accounting as real-valued fractional arithmetic, and every theorem below
that exercises the division `tokensPerInterval / interval` carries a
positivity hypothesis on the interval so that it only speaks on pools where
rational and IEEE-754 semantics agree (no `Infinity`/`NaN`).

Falsy numeric checks (`!this.bucketSize`, `!this.tokensPerInterval`,
`uniqueID ||`) are modelled as equality with `0` (for numbers) and with the
empty string (for strings).

The per-identity storage object `this.storage` is modelled as a function
`String → Option App`; `none` means the key is absent.
-/

set_option autoImplicit false

namespace RateLimiter

/-- One per-identity accounting record: the object
`{ lastDrip: 0, content: 0 }` created in `accept`. -/
structure App where
  lastDrip : ℚ
  content : ℚ
deriving DecidableEq, Repr

/-- The initial record stored on first reference to an identity. -/
def initApp : App := { lastDrip := 0, content := 0 }

/-- The third constructor argument: a string or a number.  `num none` models
passing `undefined` (or omitting the argument). -/
inductive IntervalArg where
  | str (s : String)
  | num (n : Option ℚ)

/-- The `switch` in the constructor: recognized symbolic durations map to a
millisecond count, anything else falls through (no assignment happens). -/
def intervalOfString (s : String) : Option ℚ :=
  if s = "sec" ∨ s = "second" then some 1000
  else if s = "min" ∨ s = "minute" then some (1000 * 60)
  else if s = "hr" ∨ s = "hour" then some (1000 * 60 * 60)
  else if s = "day" then some (1000 * 60 * 60 * 24)
  else none

/-- A `TokenBucket` instance.  `ownInterval` is the instance's own `interval`
property: `none` when the constructor never assigned it (unrecognized symbolic
string), `some none` when it was assigned the value `undefined`, `some (some q)`
when it was assigned the number `q`.  Reads of `this.interval` go through the
prototype chain: see `TokenBucket.interval`. -/
structure TokenBucket where
  bucketSize : ℚ
  tokensPerInterval : ℚ
  ownInterval : Option (Option ℚ)
  storage : String → Option App

/-- The constructor `TokenBucket(bucketSize, tokensPerInterval, interval)`. -/
def TokenBucket.make (bucketSize tokensPerInterval : ℚ) (interval : IntervalArg) :
    TokenBucket where
  bucketSize := bucketSize
  tokensPerInterval := tokensPerInterval
  ownInterval :=
    match interval with
    | .str s => (intervalOfString s).map some
    | .num n => some n
  storage := fun _ => none

/-- Reading `this.interval`: the instance's own property when assigned,
otherwise the prototype default `interval: 1000` from
`TokenBucket.prototype`.  The result is `none` exactly when the own property
was assigned `undefined`. -/
def TokenBucket.interval (tb : TokenBucket) : Option ℚ :=
  tb.ownInterval.getD (some 1000)

/-- The rational used for `this.interval` in `drip`'s division.  An
`undefined` read is mapped to `0`; theorems touching the division carry
`0 < intervalQ`, which confines them to pools where this modelling is exact
(in JavaScript an `undefined` or `0` interval would produce `NaN`/`Infinity`
instead). -/
def TokenBucket.intervalQ (tb : TokenBucket) : ℚ :=
  tb.interval.getD 0

/-- Models `uniqueID = uniqueID || (Math.random().toString(36).slice(2))`:
`rand` stands for the freshly generated random string. -/
def resolveID (uniqueID : Option String) (rand : String) : String :=
  match uniqueID with
  | none => rand
  | some s => if s = "" then rand else s

/-- The method `drip(app)`: add any new tokens to the bucket since the last drip.
`now` is the wall-clock sample `+new Date()`. -/
def TokenBucket.drip (tb : TokenBucket) (now : ℚ) (app : App) : App :=
  if tb.tokensPerInterval = 0 then
    { app with content := tb.bucketSize }
  else
    let deltaMS := max (now - app.lastDrip) 0
    let dripAmount := deltaMS * (tb.tokensPerInterval / tb.intervalQ)
    { lastDrip := now, content := min (app.content + dripAmount) tb.bucketSize }

/-- The method `accept(count, uniqueID)`.  Returns the boolean result together with the
bucket (whose `storage` reflects all mutations made by the call).  `rand` is
the random string used when `uniqueID` is absent or empty. -/
def TokenBucket.accept (tb : TokenBucket) (now : ℚ) (count : ℚ)
    (uniqueID : Option String) (rand : String) : Bool × TokenBucket :=
  let uid := resolveID uniqueID rand
  let app := (tb.storage uid).getD initApp
  let storage1 : String → Option App := fun s => if s = uid then some app else tb.storage s
  if tb.bucketSize = 0 then
    (true, { tb with storage := storage1 })
  else if count > tb.bucketSize then
    (false, { tb with storage := storage1 })
  else
    let app2 := tb.drip now app
    let storage2 : String → Option App := fun s => if s = uid then some app2 else tb.storage s
    if count > app2.content then
      (false, { tb with storage := storage2 })
    else
      let app3 : App := { app2 with content := app2.content - count }
      (true, { tb with storage := fun s => if s = uid then some app3 else tb.storage s })

/-- One `accept` call: its clock sample, token count, optional identity and
the random fallback string. -/
structure Call where
  now : ℚ
  count : ℚ
  uniqueID : Option String
  rand : String

/-- State transition of one call (discarding the boolean). -/
def TokenBucket.step (tb : TokenBucket) (c : Call) : TokenBucket :=
  (tb.accept c.now c.count c.uniqueID c.rand).2

/-- Run a sequence of `accept` calls. -/
def runAccepts (tb : TokenBucket) (calls : List Call) : TokenBucket :=
  calls.foldl TokenBucket.step tb

/-- The account currently stored for `id`, defaulting to the initial record
(the default that `accept` itself would install). -/
def accOf (tb : TokenBucket) (id : String) : App :=
  (tb.storage id).getD initApp

/-- The invariant `0 ≤ level ≤ capacity` for the account stored at `id` (vacuous when no
account exists yet, since the initial record has level `0`). -/
def levelInv (tb : TokenBucket) (id : String) : Prop :=
  ∀ a, tb.storage id = some a → 0 ≤ a.content ∧ a.content ≤ tb.bucketSize

/-- The trace of `lastDrip` values of `id`'s account: before any call, then
after each successive call. -/
def lastDripTrace (tb : TokenBucket) (calls : List Call) (id : String) : List ℚ :=
  match calls with
  | [] => [(accOf tb id).lastDrip]
  | c :: cs => (accOf tb id).lastDrip :: lastDripTrace (tb.step c) cs id

/-! ## Branch-unfolding lemmas for `accept` -/

theorem accept_eq_unlimited (tb : TokenBucket) (now count : ℚ) (uid : Option String)
    (rand : String) (hcap : tb.bucketSize = 0) :
    tb.accept now count uid rand =
      (true, { tb with storage := fun s =>
        (if s = resolveID uid rand then some (accOf tb (resolveID uid rand))
        else tb.storage s) }) := by
  simp only [TokenBucket.accept, accOf, hcap, if_true, eq_self_iff_true]

theorem accept_eq_oversized (tb : TokenBucket) (now count : ℚ) (uid : Option String)
    (rand : String) (hcap : tb.bucketSize ≠ 0) (hover : count > tb.bucketSize) :
    tb.accept now count uid rand =
      (false, { tb with storage := fun s =>
        (if s = resolveID uid rand then some (accOf tb (resolveID uid rand))
        else tb.storage s) }) := by
  simp only [TokenBucket.accept, accOf, hcap, if_neg hcap, if_pos hover, if_false]

theorem accept_eq_insufficient (tb : TokenBucket) (now count : ℚ) (uid : Option String)
    (rand : String) (hcap : tb.bucketSize ≠ 0) (hover : ¬ count > tb.bucketSize)
    (hinsuf : count > (tb.drip now (accOf tb (resolveID uid rand))).content) :
    tb.accept now count uid rand =
      (false, { tb with storage := fun s =>
        (if s = resolveID uid rand then some (tb.drip now (accOf tb (resolveID uid rand)))
        else tb.storage s) }) := by
  have h : count > (tb.drip now ((tb.storage (resolveID uid rand)).getD initApp)).content :=
    hinsuf
  simp only [TokenBucket.accept, if_neg hcap, if_neg hover, if_pos h, accOf]

theorem accept_eq_success (tb : TokenBucket) (now count : ℚ) (uid : Option String)
    (rand : String) (hcap : tb.bucketSize ≠ 0) (hover : ¬ count > tb.bucketSize)
    (hsuf : ¬ count > (tb.drip now (accOf tb (resolveID uid rand))).content) :
    tb.accept now count uid rand =
      (true, { tb with storage := fun s =>
        (if s = resolveID uid rand then
          some { tb.drip now (accOf tb (resolveID uid rand)) with
                 content := (tb.drip now (accOf tb (resolveID uid rand))).content - count }
        else tb.storage s) }) := by
  have h : ¬ count > (tb.drip now ((tb.storage (resolveID uid rand)).getD initApp)).content :=
    hsuf
  simp only [TokenBucket.accept, if_neg hcap, if_neg hover, if_neg h, accOf]

/-- The policy fields are never mutated by `accept`. -/
theorem accept_policy (tb : TokenBucket) (now count : ℚ) (uid : Option String)
    (rand : String) :
    (tb.accept now count uid rand).2.bucketSize = tb.bucketSize ∧
    (tb.accept now count uid rand).2.tokensPerInterval = tb.tokensPerInterval ∧
    (tb.accept now count uid rand).2.ownInterval = tb.ownInterval := by
  simp only [TokenBucket.accept]
  split_ifs <;> exact ⟨rfl, rfl, rfl⟩

/-- Whatever branch is taken, the storage of any key other than the resolved
identity is untouched. -/
theorem accept_other_storage (tb : TokenBucket) (now count : ℚ) (uid : Option String)
    (rand : String) (s : String) (hs : s ≠ resolveID uid rand) :
    (tb.accept now count uid rand).2.storage s = tb.storage s := by
  simp only [TokenBucket.accept]
  split_ifs <;> simp [hs]

/-! ## Lemmas about `drip` -/

theorem drip_eq_of_rate_zero (tb : TokenBucket) (now : ℚ) (app : App)
    (h : tb.tokensPerInterval = 0) :
    tb.drip now app = { app with content := tb.bucketSize } := by
  simp only [TokenBucket.drip, if_pos h]

theorem drip_eq_of_rate_ne (tb : TokenBucket) (now : ℚ) (app : App)
    (h : tb.tokensPerInterval ≠ 0) :
    tb.drip now app =
      { lastDrip := now,
        content := min (app.content +
          max (now - app.lastDrip) 0 * (tb.tokensPerInterval / tb.intervalQ))
          tb.bucketSize } := by
  simp only [TokenBucket.drip, if_neg h]

/-- Replacing the storage does not change `drip` (it only reads policy fields). -/
theorem drip_update_storage (tb : TokenBucket) (g : String → Option App) (now : ℚ)
    (app : App) :
    TokenBucket.drip { tb with storage := g } now app = tb.drip now app := rfl

/-- Dripping twice with the same clock sample is the same as dripping once. -/
theorem drip_idem (tb : TokenBucket) (now : ℚ) (app : App) :
    tb.drip now (tb.drip now app) = tb.drip now app := by
  by_cases h : tb.tokensPerInterval = 0
  · rw [drip_eq_of_rate_zero tb now app h, drip_eq_of_rate_zero tb now _ h]
  · rw [drip_eq_of_rate_ne tb now app h, drip_eq_of_rate_ne tb now _ h]
    simp [sub_self, min_assoc]

/-- After a drip, the level never exceeds the capacity. -/
theorem drip_content_le (tb : TokenBucket) (now : ℚ) (app : App) :
    (tb.drip now app).content ≤ tb.bucketSize := by
  by_cases h : tb.tokensPerInterval = 0
  · rw [drip_eq_of_rate_zero tb now app h]
  · rw [drip_eq_of_rate_ne tb now app h]
    exact min_le_right _ _

/-- With a nonnegative policy, a drip keeps the level within `[0, capacity]`. -/
theorem drip_bounds (tb : TokenBucket) (now : ℚ) (app : App)
    (hcap : 0 ≤ tb.bucketSize) (hrate : 0 ≤ tb.tokensPerInterval)
    (hint : 0 ≤ tb.intervalQ) (happ : 0 ≤ app.content) :
    0 ≤ (tb.drip now app).content ∧ (tb.drip now app).content ≤ tb.bucketSize := by
  refine ⟨?_, drip_content_le tb now app⟩
  by_cases h : tb.tokensPerInterval = 0
  · rw [drip_eq_of_rate_zero tb now app h]; exact hcap
  · rw [drip_eq_of_rate_ne tb now app h]
    refine le_min (add_nonneg happ ?_) hcap
    exact mul_nonneg (le_max_right _ _) (div_nonneg hrate hint)

/-- The account record currently stored for an identity satisfies the level
bounds whenever the stored ones do (the default record has level `0`). -/
theorem accOf_bounds (tb : TokenBucket) (id : String) (hcap : 0 ≤ tb.bucketSize)
    (hinv : levelInv tb id) :
    0 ≤ (accOf tb id).content ∧ (accOf tb id).content ≤ tb.bucketSize := by
  unfold accOf
  cases h : tb.storage id with
  | none => exact ⟨le_refl 0, hcap⟩
  | some a => exact hinv a h

/-! ## C3, C4, C9, C10 -/

/-- C3: with a falsy (zero/unset) capacity, `accept` returns `true` for every
count (however huge or negative) and every identity, and it never changes the
level of the resolved identity's account (the record it stores is exactly the
pre-call record, or the initial `level = 0` record if the identity was new);
all other accounts are untouched. -/
theorem accept_unlimited_always_true (tb : TokenBucket) (now count : ℚ)
    (uid : Option String) (rand : String) (hcap : tb.bucketSize = 0) :
    (tb.accept now count uid rand).1 = true ∧
    (tb.accept now count uid rand).2.storage (resolveID uid rand) =
      some (accOf tb (resolveID uid rand)) ∧
    ∀ s, s ≠ resolveID uid rand →
      (tb.accept now count uid rand).2.storage s = tb.storage s := by
  rw [accept_eq_unlimited tb now count uid rand hcap]
  exact ⟨rfl, by simp, fun s hs => by simp [hs]⟩

/-- Witness for C3: a zero-capacity pool accepts a huge negative request from
a fresh identity and stores the untouched initial record for it, leaving an
unrelated identity absent. -/
theorem accept_unlimited_always_true_witness :
    ((TokenBucket.make 0 7 (.num (some 1000))).accept 5 (-1000000) (some "A") "r").1 = true ∧
    ((TokenBucket.make 0 7 (.num (some 1000))).accept 5 (-1000000) (some "A") "r").2.storage
      "B" = none := by
  have h := accept_unlimited_always_true (TokenBucket.make 0 7 (.num (some 1000)))
    5 (-1000000) (some "A") "r" rfl
  refine ⟨h.1, ?_⟩
  have h2 := h.2.2 "B" (by decide)
  rw [h2]
  rfl

/-- C4: with a truthy capacity, a request for more than the capacity is
rejected, and the rejection happens before any refill: the record stored for
the resolved identity is exactly the pre-call record (its `lastDrip` has not
been advanced and its `content` has not been topped up). -/
theorem accept_oversized_false (tb : TokenBucket) (now count : ℚ)
    (uid : Option String) (rand : String) (hcap : tb.bucketSize ≠ 0)
    (hover : count > tb.bucketSize) :
    (tb.accept now count uid rand).1 = false ∧
    (tb.accept now count uid rand).2.storage (resolveID uid rand) =
      some (accOf tb (resolveID uid rand)) := by
  rw [accept_eq_oversized tb now count uid rand hcap hover]
  exact ⟨rfl, by simp⟩

/-- Witness for C4: a pool of capacity 5 rejects a request for 6 at an
arbitrary clock reading, leaving the (fresh) account un-refilled. -/
theorem accept_oversized_false_witness :
    (((TokenBucket.make 5 1 (.num (some 1000))).accept 123456 6 (some "A") "r").1 = false) ∧
    (((TokenBucket.make 5 1 (.num (some 1000))).accept 123456 6 (some "A") "r").2.storage
      (resolveID (some "A") "r") =
      some (accOf (TokenBucket.make 5 1 (.num (some 1000))) (resolveID (some "A") "r"))) :=
  accept_oversized_false (TokenBucket.make 5 1 (.num (some 1000))) 123456 6 (some "A") "r"
    (by decide) (by decide)

/-- C10: an oversized request against a truthy-capacity pool returns `false`
without invoking the refill: the stored record for the resolved identity is
exactly the pre-call record, every other key is untouched, and when the
identity was absent the only mutation is inserting the fresh
`level = 0, lastRefill = 0` record. -/
theorem accept_oversized_frame (tb : TokenBucket) (now count : ℚ)
    (uid : Option String) (rand : String) (hcap : tb.bucketSize ≠ 0)
    (hover : count > tb.bucketSize) :
    (tb.accept now count uid rand).1 = false ∧
    (tb.accept now count uid rand).2.storage (resolveID uid rand) =
      some (accOf tb (resolveID uid rand)) ∧
    (∀ s, s ≠ resolveID uid rand →
      (tb.accept now count uid rand).2.storage s = tb.storage s) ∧
    (tb.storage (resolveID uid rand) = none →
      (tb.accept now count uid rand).2.storage (resolveID uid rand) = some initApp) := by
  rw [accept_eq_oversized tb now count uid rand hcap hover]
  refine ⟨rfl, by simp, fun s hs => by simp [hs], fun hnone => by simp [accOf, hnone]⟩

/-- Witness for C10: the oversized rejection on a fresh identity inserts
exactly the initial record and leaves another key absent. -/
theorem accept_oversized_frame_witness :
    (((TokenBucket.make 5 1 (.num (some 1000))).accept 99 7 (some "C") "r").1 = false) ∧
    (((TokenBucket.make 5 1 (.num (some 1000))).accept 99 7 (some "C") "r").2.storage "C" =
      some initApp) ∧
    (((TokenBucket.make 5 1 (.num (some 1000))).accept 99 7 (some "C") "r").2.storage "D" =
      none) := by
  have h := accept_oversized_frame (TokenBucket.make 5 1 (.num (some 1000))) 99 7
    (some "C") "r" (by decide) (by decide)
  refine ⟨h.1, ?_, ?_⟩
  · have h4 := h.2.2.2 rfl
    exact h4
  · have h3 := h.2.2.1 "D" (by decide)
    rw [h3]
    rfl

/-- C9: a call for identity `A` leaves the record of any distinct identity `B`
(already present, with record `b`) completely unchanged, whatever the outcome
of the call. -/
theorem accept_identity_isolation (tb : TokenBucket) (now count : ℚ)
    (uid : Option String) (rand : String) (A B : String) (b : App)
    (hA : resolveID uid rand = A) (hApres : tb.storage A ≠ none) (hAB : A ≠ B)
    (hBpres : tb.storage B = some b) :
    (tb.accept now count uid rand).2.storage B = some b := by
  have hs : B ≠ resolveID uid rand := by rw [hA]; exact hAB.symm
  rw [accept_other_storage tb now count uid rand B hs]
  exact hBpres

/-- Witness for C9: with identities "A" and "B" both present (each created by
a rejected probe), draining a request against "A" leaves "B"'s record
untouched. -/
theorem accept_identity_isolation_witness :
    ((runAccepts (TokenBucket.make 5 5 (.num (some 1000)))
        [⟨0, 1, some "A", "r"⟩, ⟨0, 1, some "B", "r"⟩]).accept 0 2 (some "A") "r").2.storage
      "B" = some { lastDrip := 0, content := 0 } := by
  have hApres : (runAccepts (TokenBucket.make 5 5 (.num (some 1000)))
      [⟨0, 1, some "A", "r"⟩, ⟨0, 1, some "B", "r"⟩]).storage "A" ≠ none := by
    norm_num [runAccepts, TokenBucket.step, TokenBucket.accept, TokenBucket.drip, accOf,
      resolveID, TokenBucket.make, TokenBucket.intervalQ, TokenBucket.interval, initApp,
      List.foldl]
    simp
  have hBpres : (runAccepts (TokenBucket.make 5 5 (.num (some 1000)))
      [⟨0, 1, some "A", "r"⟩, ⟨0, 1, some "B", "r"⟩]).storage "B" =
      some { lastDrip := 0, content := 0 } := by
    norm_num [runAccepts, TokenBucket.step, TokenBucket.accept, TokenBucket.drip, accOf,
      resolveID, TokenBucket.make, TokenBucket.intervalQ, TokenBucket.interval, initApp,
      List.foldl]
    simp
  exact accept_identity_isolation
    (runAccepts (TokenBucket.make 5 5 (.num (some 1000)))
      [⟨0, 1, some "A", "r"⟩, ⟨0, 1, some "B", "r"⟩])
    0 2 (some "A") "r" "A" "B" { lastDrip := 0, content := 0 }
    (by simp [resolveID]) hApres (by decide) hBpres

/-! ## C5: the refill operation -/

/-- C5: `drip` behaves exactly as specified: a falsy `tokensPerInterval`
unconditionally tops the level up to the capacity; otherwise the elapsed time
is clamped to be nonnegative, `lastDrip` is set to `now`, and the level grows
by `elapsed * (tokensPerInterval / interval)` capped at the capacity — in
exact fractional arithmetic, so that (third conjunct) two successive
uncapped drips accumulate exactly the elapsed-proportional amount, with no
truncation of sub-token fractions. -/
theorem drip_spec (tb : TokenBucket) (now : ℚ) (app : App) :
    (tb.tokensPerInterval = 0 → tb.drip now app = { app with content := tb.bucketSize }) ∧
    (tb.tokensPerInterval ≠ 0 →
      (tb.drip now app).lastDrip = now ∧
      (tb.drip now app).content =
        min (app.content +
          max (now - app.lastDrip) 0 * (tb.tokensPerInterval / tb.intervalQ))
          tb.bucketSize) ∧
    (∀ t2 : ℚ, tb.tokensPerInterval ≠ 0 →
      0 ≤ tb.tokensPerInterval / tb.intervalQ →
      app.lastDrip ≤ now → now ≤ t2 →
      app.content + (t2 - app.lastDrip) * (tb.tokensPerInterval / tb.intervalQ) ≤
        tb.bucketSize →
      (tb.drip t2 (tb.drip now app)).content =
        app.content + (t2 - app.lastDrip) * (tb.tokensPerInterval / tb.intervalQ)) := by
  refine ⟨fun h => drip_eq_of_rate_zero tb now app h, fun h => ?_, ?_⟩
  · rw [drip_eq_of_rate_ne tb now app h]
    exact ⟨rfl, rfl⟩
  · intro t2 h hr h01 h12 hcap
    rw [drip_eq_of_rate_ne tb now app h]
    have hmax1 : max (now - app.lastDrip) 0 = now - app.lastDrip :=
      max_eq_left (sub_nonneg.mpr h01)
    have hle1 : app.content + (now - app.lastDrip) * (tb.tokensPerInterval / tb.intervalQ) ≤
        tb.bucketSize := by
      refine le_trans (add_le_add_left ?_ app.content) hcap
      exact mul_le_mul_of_nonneg_right (by linarith) hr
    rw [drip_eq_of_rate_ne tb t2 _ h]
    simp only [hmax1, min_eq_left hle1]
    have hmax2 : max (t2 - now) 0 = t2 - now := max_eq_left (sub_nonneg.mpr h12)
    have heq : app.content + (now - app.lastDrip) * (tb.tokensPerInterval / tb.intervalQ) +
        (t2 - now) * (tb.tokensPerInterval / tb.intervalQ) =
        app.content + (t2 - app.lastDrip) * (tb.tokensPerInterval / tb.intervalQ) := by
      ring
    rw [hmax2, heq, min_eq_left hcap]

/-- Witness for C5: for capacity 10, rate 5 per 1000ms, an account last
refilled at 0 and dripped at 100 then at 300 accumulates exactly
`300 * (5/1000) = 3/2` tokens, fractions included. -/
theorem drip_spec_witness :
    ((TokenBucket.make 10 5 (.num (some 1000))).drip 300
      ((TokenBucket.make 10 5 (.num (some 1000))).drip 100 initApp)).content = 3 / 2 := by
  have h := (drip_spec (TokenBucket.make 10 5 (.num (some 1000))) 100 initApp).2.2 300
    (by decide)
    (by norm_num [TokenBucket.make, TokenBucket.intervalQ, TokenBucket.interval])
    (by norm_num [initApp]) (by norm_num)
    (by norm_num [TokenBucket.make, TokenBucket.intervalQ, TokenBucket.interval, initApp])
  rw [h]
  norm_num [TokenBucket.make, TokenBucket.intervalQ, TokenBucket.interval, initApp]

/-! ## C6: idempotent rejection -/

/-- C6: when `accept` reaches the insufficient-tokens branch (truthy capacity,
count within capacity but above the post-refill level), it returns `false`
and stores exactly the post-refill record; an immediately repeated call with
the same count and the same clock reading again returns `false` and observes
the very same record. -/
theorem accept_reject_idempotent (tb : TokenBucket) (now count : ℚ)
    (uid : Option String) (rand : String) (hcap : tb.bucketSize ≠ 0)
    (hover : ¬ count > tb.bucketSize)
    (hinsuf : count > (tb.drip now (accOf tb (resolveID uid rand))).content) :
    (tb.accept now count uid rand).1 = false ∧
    (tb.accept now count uid rand).2.storage (resolveID uid rand) =
      some (tb.drip now (accOf tb (resolveID uid rand))) ∧
    ((tb.accept now count uid rand).2.accept now count uid rand).1 = false ∧
    ((tb.accept now count uid rand).2.accept now count uid rand).2.storage
      (resolveID uid rand) = some (tb.drip now (accOf tb (resolveID uid rand))) := by
  have e1 := accept_eq_insufficient tb now count uid rand hcap hover hinsuf
  have happ2 : accOf (tb.accept now count uid rand).2 (resolveID uid rand) =
      tb.drip now (accOf tb (resolveID uid rand)) := by
    rw [e1]; simp [accOf]
  have hcap2 : (tb.accept now count uid rand).2.bucketSize ≠ 0 := by
    rw [e1]; exact hcap
  have hover2 : ¬ count > (tb.accept now count uid rand).2.bucketSize := by
    rw [e1]; exact hover
  have hdrip2 : (tb.accept now count uid rand).2.drip now
      (accOf (tb.accept now count uid rand).2 (resolveID uid rand)) =
      tb.drip now (accOf tb (resolveID uid rand)) := by
    rw [happ2, e1, drip_update_storage, drip_idem]
  have hinsuf2 : count > ((tb.accept now count uid rand).2.drip now
      (accOf (tb.accept now count uid rand).2 (resolveID uid rand))).content := by
    rw [hdrip2]; exact hinsuf
  have e2 := accept_eq_insufficient (tb.accept now count uid rand).2 now count uid rand
    hcap2 hover2 hinsuf2
  refine ⟨by rw [e1], by rw [e1]; simp, by rw [e2], ?_⟩
  rw [e2]
  simp [hdrip2]

/-- Witness for C6: on a fresh identity with capacity 5 at clock 0, a request
for 3 finds a level of 0 after the (empty) refill; both the call and its
immediate repetition return `false` and leave the dripped record in place. -/
theorem accept_reject_idempotent_witness :
    (((TokenBucket.make 5 5 (.num (some 1000))).accept 0 3 (some "A") "r").1 = false) ∧
    ((((TokenBucket.make 5 5 (.num (some 1000))).accept 0 3 (some "A") "r").2.accept 0 3
      (some "A") "r").1 = false) := by
  have h := accept_reject_idempotent (TokenBucket.make 5 5 (.num (some 1000))) 0 3
    (some "A") "r" (by decide)
    (by norm_num [TokenBucket.make])
    (by
      norm_num [TokenBucket.make, TokenBucket.drip, TokenBucket.intervalQ,
        TokenBucket.interval, accOf, resolveID, initApp])
  exact ⟨h.1, h.2.2.1⟩

/-! ## More step-level helpers, for the sequence invariants -/

/-- The read interval is never mutated by `accept`. -/
theorem accept_intervalQ (tb : TokenBucket) (now count : ℚ) (uid : Option String)
    (rand : String) :
    (tb.accept now count uid rand).2.intervalQ = tb.intervalQ := by
  rw [TokenBucket.intervalQ, TokenBucket.intervalQ, TokenBucket.interval,
    TokenBucket.interval, (accept_policy tb now count uid rand).2.2]

/-- The policy fields are never mutated by a step. -/
theorem step_policy (tb : TokenBucket) (c : Call) :
    (tb.step c).bucketSize = tb.bucketSize ∧
    (tb.step c).tokensPerInterval = tb.tokensPerInterval ∧
    (tb.step c).intervalQ = tb.intervalQ :=
  ⟨(accept_policy tb c.now c.count c.uniqueID c.rand).1,
   (accept_policy tb c.now c.count c.uniqueID c.rand).2.1,
   accept_intervalQ tb c.now c.count c.uniqueID c.rand⟩

/-- After a step, the record stored for the resolved identity is the pre-call
record, the dripped record, or the dripped-then-debited record. -/
theorem step_storage_self (tb : TokenBucket) (c : Call) :
    (tb.step c).storage (resolveID c.uniqueID c.rand) =
      some (accOf tb (resolveID c.uniqueID c.rand)) ∨
    (tb.step c).storage (resolveID c.uniqueID c.rand) =
      some (tb.drip c.now (accOf tb (resolveID c.uniqueID c.rand))) ∨
    ((tb.step c).storage (resolveID c.uniqueID c.rand) =
      some { tb.drip c.now (accOf tb (resolveID c.uniqueID c.rand)) with
             content := (tb.drip c.now (accOf tb (resolveID c.uniqueID c.rand))).content -
               c.count } ∧
      ¬ c.count > (tb.drip c.now (accOf tb (resolveID c.uniqueID c.rand))).content) := by
  unfold TokenBucket.step
  by_cases h0 : tb.bucketSize = 0
  · left
    rw [accept_eq_unlimited _ _ _ _ _ h0]
    simp
  · by_cases h1 : c.count > tb.bucketSize
    · left
      rw [accept_eq_oversized _ _ _ _ _ h0 h1]
      simp
    · by_cases h2 : c.count > (tb.drip c.now (accOf tb (resolveID c.uniqueID c.rand))).content
      · right; left
        rw [accept_eq_insufficient _ _ _ _ _ h0 h1 h2]
        simp
      · right; right
        refine ⟨?_, h2⟩
        rw [accept_eq_success _ _ _ _ _ h0 h1 h2]
        simp

/-- One step preserves the level invariant for an identity (whether or not
the call targets it), given a sane policy and a nonnegative request count. -/
theorem levelInv_step (tb : TokenBucket) (id : String) (c : Call)
    (hcap : 0 < tb.bucketSize) (hrate : 0 ≤ tb.tokensPerInterval)
    (hint : 0 ≤ tb.intervalQ) (hcount : 0 ≤ c.count) (hinv : levelInv tb id) :
    levelInv (tb.step c) id := by
  by_cases hid : id = resolveID c.uniqueID c.rand
  case neg =>
    intro a ha
    rw [TokenBucket.step,
      accept_other_storage tb c.now c.count c.uniqueID c.rand id hid] at ha
    rw [(step_policy tb c).1]
    exact hinv a ha
  case pos =>
    intro a ha
    rw [(step_policy tb c).1]
    rw [hid] at ha
    have hb := accOf_bounds tb (resolveID c.uniqueID c.rand) (le_of_lt hcap) (by
      intro a' ha'
      exact hinv a' (by rw [hid]; exact ha'))
    have hd := drip_bounds tb c.now (accOf tb (resolveID c.uniqueID c.rand))
      (le_of_lt hcap) hrate hint hb.1
    rcases step_storage_self tb c with h | h | ⟨h, hle⟩
    · rw [h] at ha
      obtain rfl := Option.some_inj.mp ha
      exact hb
    · rw [h] at ha
      obtain rfl := Option.some_inj.mp ha
      exact hd
    · rw [h] at ha
      obtain rfl := Option.some_inj.mp ha
      constructor
      · simp only [not_lt] at hle
        simp only [sub_nonneg]
        exact hle
      · have := hd.2
        simp only []
        linarith

/-- Running a sequence of nonnegative-count calls preserves the level
invariant for every identity. -/
theorem levelInv_run (tb : TokenBucket) (id : String) (calls : List Call)
    (hcap : 0 < tb.bucketSize) (hrate : 0 ≤ tb.tokensPerInterval)
    (hint : 0 ≤ tb.intervalQ) (hinv : levelInv tb id)
    (hcounts : ∀ c ∈ calls, 0 ≤ c.count) :
    levelInv (runAccepts tb calls) id := by
  induction calls generalizing tb with
  | nil => exact hinv
  | cons c cs ih =>
    have hp := step_policy tb c
    exact ih (tb.step c) (by rw [hp.1]; exact hcap) (by rw [hp.2.1]; exact hrate)
      (by rw [hp.2.2]; exact hint)
      (levelInv_step tb id c hcap hrate hint (hcounts c (List.mem_cons_self c cs)) hinv)
      (fun c' hc' => hcounts c' (List.mem_cons_of_mem c hc'))

/-! ## C1: the level invariant -/

/-- C1 counterexample: the claim fails for negative request counts.  With
capacity 10 (truthy), a sequence of two `accept` calls with counts `-5` and
`-100` against identity "A" leaves the account's level at `105`, violating
`level ≤ capacity`. -/
theorem accept_level_invariant_counterexample :
    (accOf (runAccepts (TokenBucket.make 10 1 (.num (some 1000)))
        [⟨0, -5, some "A", "r"⟩, ⟨0, -100, some "A", "r"⟩]) "A").content = 105 ∧
    ¬ ((105 : ℚ) ≤ (TokenBucket.make 10 1 (.num (some 1000))).bucketSize) := by
  constructor
  · norm_num [runAccepts, TokenBucket.step, TokenBucket.accept, TokenBucket.drip, accOf,
      resolveID, TokenBucket.make, TokenBucket.intervalQ, TokenBucket.interval, initApp,
      List.foldl]
    simp
  · norm_num [TokenBucket.make]

/-- C1 (amended): for a pool with positive capacity, nonnegative refill rate
and positive interval, and any sequence of `accept` calls against one
identity whose counts are all nonnegative, `0 ≤ level ≤ capacity` holds
after every call (i.e. after every prefix of the sequence). -/
theorem accept_level_invariant (tb : TokenBucket) (id : String) (calls : List Call)
    (hcap : 0 < tb.bucketSize) (hrate : 0 ≤ tb.tokensPerInterval)
    (hint : 0 < tb.intervalQ) (hinv : levelInv tb id)
    (hcalls : ∀ c ∈ calls, resolveID c.uniqueID c.rand = id ∧ 0 ≤ c.count) :
    ∀ n : ℕ, levelInv (runAccepts tb (calls.take n)) id := by
  intro n
  exact levelInv_run tb id (calls.take n) hcap hrate (le_of_lt hint) hinv
    (fun c hc => (hcalls c (List.take_subset n calls hc)).2)

/-- Witness for C1: a burst of 5 then a rejected request of 3 at clock 1000
against capacity 5 leaves the level at 0, within `[0, capacity]`. -/
theorem accept_level_invariant_witness :
    (runAccepts (TokenBucket.make 5 5 (.num (some 1000)))
        (([⟨1000, 5, some "A", "r"⟩, ⟨1000, 3, some "A", "r"⟩] : List Call).take 2)).storage
      "A" = some { lastDrip := 1000, content := 0 } ∧
    (0 : ℚ) ≤ ({ lastDrip := 1000, content := 0 } : App).content ∧
    ({ lastDrip := 1000, content := 0 } : App).content ≤
      (runAccepts (TokenBucket.make 5 5 (.num (some 1000)))
        (([⟨1000, 5, some "A", "r"⟩, ⟨1000, 3, some "A", "r"⟩] : List Call).take 2)).bucketSize := by
  have hs : (runAccepts (TokenBucket.make 5 5 (.num (some 1000)))
      (([⟨1000, 5, some "A", "r"⟩, ⟨1000, 3, some "A", "r"⟩] : List Call).take 2)).storage
      "A" = some { lastDrip := 1000, content := 0 } := by
    norm_num [runAccepts, TokenBucket.step, TokenBucket.accept, TokenBucket.drip, accOf,
      resolveID, TokenBucket.make, TokenBucket.intervalQ, TokenBucket.interval, initApp,
      List.foldl, List.take]
    simp
  have h := accept_level_invariant (TokenBucket.make 5 5 (.num (some 1000))) "A"
    [⟨1000, 5, some "A", "r"⟩, ⟨1000, 3, some "A", "r"⟩]
    (by decide) (by decide) (by decide)
    (fun a ha => by simp [TokenBucket.make] at ha)
    (by
      intro c hc
      rcases List.mem_cons.mp hc with rfl | hc2
      · exact ⟨by simp [resolveID], by norm_num⟩
      · rcases List.mem_cons.mp hc2 with rfl | hc3
        · exact ⟨by simp [resolveID], by norm_num⟩
        · exact absurd hc3 (List.not_mem_nil c)) 2
  exact ⟨hs, (h { lastDrip := 1000, content := 0 } hs).1,
    (h { lastDrip := 1000, content := 0 } hs).2⟩

/-! ## C7: monotonicity of `lastDrip` -/

/-- After a step, the resolved identity's `lastDrip` is either unchanged or
equal to the call's clock sample. -/
theorem step_lastDrip_cases (tb : TokenBucket) (c : Call) :
    (accOf (tb.step c) (resolveID c.uniqueID c.rand)).lastDrip =
      (accOf tb (resolveID c.uniqueID c.rand)).lastDrip ∨
    (accOf (tb.step c) (resolveID c.uniqueID c.rand)).lastDrip = c.now := by
  rcases step_storage_self tb c with h | h | ⟨h, _⟩
  · left
    rw [accOf, h]
    rfl
  · by_cases h3 : tb.tokensPerInterval = 0
    · left
      rw [accOf, h, drip_eq_of_rate_zero _ _ _ h3]
      rfl
    · right
      rw [accOf, h, drip_eq_of_rate_ne _ _ _ h3]
      rfl
  · by_cases h3 : tb.tokensPerInterval = 0
    · left
      rw [accOf, h, drip_eq_of_rate_zero _ _ _ h3]
      rfl
    · right
      rw [accOf, h, drip_eq_of_rate_ne _ _ _ h3]
      rfl

/-- C7 counterexample: the claim fails for arbitrary clock readings.  With a
backwards clock (readings 100 then 40), the account's `lastRefill` goes from
100 down to 40; the code stores `now` unconditionally. -/
theorem lastRefill_monotone_counterexample :
    (accOf (runAccepts (TokenBucket.make 5 1 (.num (some 1000)))
        [⟨100, 1, some "A", "r"⟩]) "A").lastDrip = 100 ∧
    (accOf (runAccepts (TokenBucket.make 5 1 (.num (some 1000)))
        [⟨100, 1, some "A", "r"⟩, ⟨40, 1, some "A", "r"⟩]) "A").lastDrip = 40 ∧
    ¬ ((100 : ℚ) ≤ 40) := by
  refine ⟨?_, ?_, by norm_num⟩
  · norm_num [runAccepts, TokenBucket.step, TokenBucket.accept, TokenBucket.drip, accOf,
      resolveID, TokenBucket.make, TokenBucket.intervalQ, TokenBucket.interval, initApp,
      List.foldl]
    simp
  · norm_num [runAccepts, TokenBucket.step, TokenBucket.accept, TokenBucket.drip, accOf,
      resolveID, TokenBucket.make, TokenBucket.intervalQ, TokenBucket.interval, initApp,
      List.foldl]
    simp

/-- C7 (amended): for any sequence of `accept` calls against one identity
whose clock readings are non-decreasing and start no earlier than the
account's current `lastRefill`, the account's `lastRefill` is monotonically
non-decreasing across the sequence. -/
theorem lastRefill_monotone (tb : TokenBucket) (id : String) (calls : List Call)
    (hid : ∀ c ∈ calls, resolveID c.uniqueID c.rand = id)
    (hchain : List.Chain' (· ≤ ·) ((accOf tb id).lastDrip :: calls.map Call.now)) :
    List.Chain' (· ≤ ·) (lastDripTrace tb calls id) := by
  induction calls generalizing tb with
  | nil => simp [lastDripTrace]
  | cons c cs ih =>
    have hidc : resolveID c.uniqueID c.rand = id := hid c (List.mem_cons_self c cs)
    rw [List.map_cons] at hchain
    have h1 := List.chain'_cons.mp hchain
    have hstep := step_lastDrip_cases tb c
    rw [hidc] at hstep
    have hstep_le : (accOf (tb.step c) id).lastDrip ≤ c.now := by
      rcases hstep with h | h
      · rw [h]; exact h1.1
      · rw [h]
    have hchain2 : List.Chain' (· ≤ ·)
        ((accOf (tb.step c) id).lastDrip :: cs.map Call.now) := by
      rcases List.chain'_cons'.mp h1.2 with ⟨hh, ht⟩
      exact List.chain'_cons'.mpr ⟨fun x hx => le_trans hstep_le (hh x hx), ht⟩
    have ihc := ih (tb.step c) (fun c' hc' => hid c' (List.mem_cons_of_mem c hc')) hchain2
    rw [lastDripTrace]
    refine List.chain'_cons'.mpr ⟨?_, ihc⟩
    intro x hx
    have hhead : (lastDripTrace (tb.step c) cs id).head? =
        some ((accOf (tb.step c) id).lastDrip) := by
      cases cs <;> rfl
    rw [hhead] at hx
    simp only [Option.mem_def, Option.some_inj] at hx
    rw [← hx]
    rcases hstep with h | h
    · rw [h]
    · rw [h]; exact h1.1

/-- Witness for C7: with non-decreasing clock readings 100 then 250 the
trace of `lastRefill` values (0, then 100, then 250) is non-decreasing. -/
theorem lastRefill_monotone_witness :
    List.Chain' (· ≤ ·) (lastDripTrace (TokenBucket.make 5 1 (.num (some 1000)))
      [⟨100, 1, some "A", "r"⟩, ⟨250, 1, some "A", "r"⟩] "A") := by
  apply lastRefill_monotone
  · intro c hc
    rcases List.mem_cons.mp hc with rfl | hc2
    · simp [resolveID]
    · rcases List.mem_cons.mp hc2 with rfl | hc3
      · simp [resolveID]
      · exact absurd hc3 (List.not_mem_nil c)
  · norm_num [accOf, TokenBucket.make, initApp, List.chain'_cons]

/-! ## C8: the burst property -/

/-- C8 counterexample: the claim fails for a truthy but negative refill rate.
With capacity 5 (truthy), rate `-1` (truthy) and interval 1000 (truthy), a
fresh identity's level can only stay at or below 0, so `accept(5)` returns
`false` at the arbitrarily late clock reading `10^9` (and at every other). -/
theorem accept_burst_counterexample :
    (TokenBucket.make 5 (-1) (.num (some 1000))).bucketSize ≠ 0 ∧
    (TokenBucket.make 5 (-1) (.num (some 1000))).tokensPerInterval ≠ 0 ∧
    (TokenBucket.make 5 (-1) (.num (some 1000))).intervalQ ≠ 0 ∧
    (TokenBucket.make 5 (-1) (.num (some 1000))).storage "A" = none ∧
    ((TokenBucket.make 5 (-1) (.num (some 1000))).accept 1000000000 5 (some "A") "r").1 =
      false := by
  refine ⟨by decide, by decide, by decide, rfl, ?_⟩
  norm_num [TokenBucket.accept, TokenBucket.drip, accOf, resolveID, TokenBucket.make,
    TokenBucket.intervalQ, TokenBucket.interval, initApp]

/-- C8 (amended): for a pool with positive capacity `C`, positive refill rate
and positive interval, and a fresh identity, `accept(C)` at any clock reading
at or past the fill time `C * interval / rate` returns `true`, and an
immediately following `accept(1)` at the same clock reading returns `false`. -/
theorem accept_burst (tb : TokenBucket) (id rand : String) (now : ℚ)
    (hcap : 0 < tb.bucketSize) (hrate : 0 < tb.tokensPerInterval)
    (hint : 0 < tb.intervalQ) (hid : id ≠ "") (hfresh : tb.storage id = none)
    (hlate : tb.bucketSize * tb.intervalQ / tb.tokensPerInterval ≤ now) :
    (tb.accept now tb.bucketSize (some id) rand).1 = true ∧
    ((tb.accept now tb.bucketSize (some id) rand).2.accept now 1 (some id) rand).1 =
      false := by
  have hres : resolveID (some id) rand = id := by simp [resolveID, hid]
  have hcapne : tb.bucketSize ≠ 0 := ne_of_gt hcap
  have hrne : tb.tokensPerInterval ≠ 0 := ne_of_gt hrate
  have hiQne : tb.intervalQ ≠ 0 := ne_of_gt hint
  have hr : 0 < tb.tokensPerInterval / tb.intervalQ := div_pos hrate hint
  have hnow : 0 ≤ now :=
    le_trans (le_of_lt (div_pos (mul_pos hcap hint) hrate)) hlate
  have happ : accOf tb id = initApp := by rw [accOf, hfresh]; rfl
  have hdripeq : tb.drip now (accOf tb id) =
      { lastDrip := now, content := tb.bucketSize } := by
    rw [happ, drip_eq_of_rate_ne _ _ _ hrne]
    have h1 : max (now - initApp.lastDrip) 0 = now := by
      rw [initApp]
      simp only [sub_zero]
      exact max_eq_left hnow
    have key : tb.bucketSize * tb.intervalQ / tb.tokensPerInterval *
        (tb.tokensPerInterval / tb.intervalQ) = tb.bucketSize := by
      field_simp
    have h2 : tb.bucketSize ≤ now * (tb.tokensPerInterval / tb.intervalQ) := by
      calc tb.bucketSize = tb.bucketSize * tb.intervalQ / tb.tokensPerInterval *
            (tb.tokensPerInterval / tb.intervalQ) := key.symm
        _ ≤ now * (tb.tokensPerInterval / tb.intervalQ) :=
            mul_le_mul_of_nonneg_right hlate (le_of_lt hr)
    congr 1
    rw [h1]
    have h0 : initApp.content = 0 := rfl
    rw [h0, zero_add]
    exact min_eq_right h2
  have e1 := accept_eq_success tb now tb.bucketSize (some id) rand hcapne
    (lt_irrefl tb.bucketSize) (by rw [hres, hdripeq]; exact lt_irrefl tb.bucketSize)
  constructor
  · rw [e1]
  · have hb2 := accept_policy tb now tb.bucketSize (some id) rand
    have hi2 := accept_intervalQ tb now tb.bucketSize (some id) rand
    have hdripeq2 : tb.drip now ((tb.storage id).getD initApp) =
        { lastDrip := now, content := tb.bucketSize } := hdripeq
    have hacc2 : accOf (tb.accept now tb.bucketSize (some id) rand).2 id =
        { lastDrip := now, content := 0 } := by
      simp [accOf, e1, hres, hdripeq2]
    have hcapne2 : (tb.accept now tb.bucketSize (some id) rand).2.bucketSize ≠ 0 := by
      rw [hb2.1]; exact hcapne
    by_cases hc1 : (1 : ℚ) > tb.bucketSize
    · have e2 := accept_eq_oversized (tb.accept now tb.bucketSize (some id) rand).2 now 1
        (some id) rand hcapne2 (by rw [hb2.1]; exact hc1)
      rw [e2]
    · have hdrip2 : ((tb.accept now tb.bucketSize (some id) rand).2.drip now
          { lastDrip := now, content := 0 }).content = 0 := by
        rw [drip_eq_of_rate_ne _ _ _ (by rw [hb2.2.1]; exact hrne)]
        simp only [sub_self, max_self, zero_mul, add_zero]
        rw [hb2.1]
        exact min_eq_left (le_of_lt hcap)
      have hinsuf2 : (1 : ℚ) > ((tb.accept now tb.bucketSize (some id) rand).2.drip now
          (accOf (tb.accept now tb.bucketSize (some id) rand).2
            (resolveID (some id) rand))).content := by
        rw [hres, hacc2, hdrip2]
        norm_num
      have e2 := accept_eq_insufficient (tb.accept now tb.bucketSize (some id) rand).2 now 1
        (some id) rand hcapne2 (by rw [hb2.1]; exact hc1) hinsuf2
      rw [e2]

/-- Witness for C8: capacity 5, rate 5 per 1000ms, fresh identity "u1",
clock 1000 (exactly the fill time): `accept(5)` succeeds and the immediate
`accept(1)` fails. -/
theorem accept_burst_witness :
    (((TokenBucket.make 5 5 (.num (some 1000))).accept 1000
      (TokenBucket.make 5 5 (.num (some 1000))).bucketSize (some "u1") "r").1 = true) ∧
    ((((TokenBucket.make 5 5 (.num (some 1000))).accept 1000
      (TokenBucket.make 5 5 (.num (some 1000))).bucketSize (some "u1") "r").2.accept 1000 1
      (some "u1") "r").1 = false) :=
  accept_burst (TokenBucket.make 5 5 (.num (some 1000))) "u1" "r" 1000
    (by decide) (by decide) (by decide) (by decide) rfl
    (by norm_num [TokenBucket.make, TokenBucket.intervalQ, TokenBucket.interval])

/-! ## C2: unrecognized symbolic interval strings -/

/-- C2 counterexample: after constructing with the unrecognized interval
string "week", the interval read by the refill computation is the prototype
default 1000 — a truthy value, not a falsy/zero one — and a drip of 1000ms at
rate 1 credits exactly 1 token accordingly. -/
theorem make_unrecognized_interval_counterexample :
    (TokenBucket.make 5 1 (.str "week")).intervalQ = 1000 ∧
    ¬ (TokenBucket.make 5 1 (.str "week")).intervalQ = 0 ∧
    ((TokenBucket.make 5 1 (.str "week")).drip 1000 initApp).content = 1 := by
  refine ⟨by decide, by decide, ?_⟩
  have hq : (TokenBucket.make 5 1 (.str "week")).intervalQ = 1000 := by decide
  rw [drip_eq_of_rate_ne _ _ _ (by decide), hq]
  norm_num [TokenBucket.make, initApp, min_def]

/-- C2 (amended): constructing with an interval string outside the recognized
set leaves the instance's own `interval` property unassigned, but the value
subsequently read (and used by the refill computation) resolves through the
prototype chain to the default 1000 — a truthy value, not falsy/zero. -/
theorem make_unrecognized_interval (cap rate : ℚ) (s : String)
    (hs : s ∉ (["sec", "second", "min", "minute", "hr", "hour", "day"] : List String)) :
    (TokenBucket.make cap rate (.str s)).ownInterval = none ∧
    (TokenBucket.make cap rate (.str s)).interval = some 1000 ∧
    (TokenBucket.make cap rate (.str s)).intervalQ = 1000 := by
  simp only [List.mem_cons, List.not_mem_nil, or_false, not_or] at hs
  obtain ⟨h1, h2, h3, h4, h5, h6, h7⟩ := hs
  have hnone : intervalOfString s = none := by
    rw [intervalOfString, if_neg (not_or.mpr ⟨h1, h2⟩), if_neg (not_or.mpr ⟨h3, h4⟩),
      if_neg (not_or.mpr ⟨h5, h6⟩), if_neg h7]
  refine ⟨?_, ?_, ?_⟩
  · simp [TokenBucket.make, hnone]
  · simp [TokenBucket.interval, TokenBucket.make, hnone]
  · simp [TokenBucket.intervalQ, TokenBucket.interval, TokenBucket.make, hnone]

/-- Witness for C2: the unrecognized string "week" leaves the own property
unset and the read interval is the prototype default 1000. -/
theorem make_unrecognized_interval_witness :
    (TokenBucket.make 5 1 (.str "fortnight")).ownInterval = none ∧
    (TokenBucket.make 5 1 (.str "fortnight")).interval = some 1000 ∧
    (TokenBucket.make 5 1 (.str "fortnight")).intervalQ = 1000 :=
  make_unrecognized_interval 5 1 "fortnight" (by decide)

end RateLimiter
